import Mathlib

/-!
Verification of the camera_puzzle tile-swap game engine.

The definitions below are a shallow embedding of the TypeScript component in
src/src/app.component.ts and of the extended revision of the same component in
src/unnamed/part_000.  Machine numbers are modelled as Nat, Int and Rat
(timestamps from performance.now are rationals, grid indices are naturals,
move counters are integers because the language does not clamp them).
Random draws (Fisher-Yates choices, scripted animation pairs) are passed in
explicitly as parameters.  Asynchronous swap transitions are modelled at their
commit point: drawScrambledVideo commits a pending AnimationState into the
tiles array exactly when its progress reaches 1, so a completed transition is
embedded as the corresponding committed swap.
-/

namespace CameraPuzzle

/-- PUZZLE_DIMENSION constant from app.component.ts line 4: the canvas is a
600 by 600 square, divisible by every grid size 3, 4, 5. -/
def PUZZLE_DIMENSION : ℕ := 600

/-- Union of the gameState enumerations of the revisions: app.component.ts has
idle, countdown, playing, won, error; part_000 additionally has times-up and
stage-cleared. -/
inductive Phase where
  | idle
  | countdown
  | playing
  | won
  | timesUp
  | stageCleared
  | error
deriving DecidableEq, Repr

/-- AnimationState from app.component.ts lines 6-11: one in-flight swap
transition between two grid positions. -/
structure AnimationState where
  index1 : ℕ
  index2 : ℕ
  startTime : ℚ
  duration : ℚ
deriving DecidableEq, Repr

/-- Score record from app.component.ts lines 22-27. -/
structure Score where
  score : ℤ
  moves : ℤ
  time : ℚ
  date : ℤ
deriving DecidableEq, Repr

/-- Leaderboard from app.component.ts lines 29-33: one bucket of Score entries
per grid size 3, 4, 5. -/
structure Leaderboard where
  b3 : List Score
  b4 : List Score
  b5 : List Score
deriving DecidableEq, Repr

/-- TimedChallengeStats from part_000: the immutable snapshot taken when a
timed session ends. -/
structure TimedChallengeStats where
  puzzlesCleared : ℕ
  totalMoves : ℤ
  difficulty : ℕ
  duration : ℕ
deriving DecidableEq, Repr

/-- The destructuring swap idiom of the source on a list of tile indices:
both reads happen on the original list, then the two positions are written.
Used by shuffleTiles, drawScrambledVideo (commit at progress 1) and
undoLastMove. -/
def listSwap (l : List ℕ) (i j : ℕ) : List ℕ :=
  (l.set i (l.getD j 0)).set j (l.getD i 0)

/-- isSolved from app.component.ts lines 340-347: true iff every position
holds its own index. -/
def isSolved (tiles : List ℕ) : Bool :=
  (List.range tiles.length).all fun i => tiles.getD i 0 == i

/-- One pass of the Fisher-Yates loop of shuffleTiles, indices counting down:
at index i+1 the draw c (i+1) from Math.random picks the partner, then
recursion continues at i.  The loop of the source runs i from length-1 down
to 1. -/
def fyFrom (c : ℕ → ℕ) : ℕ → List ℕ → List ℕ
  | 0, l => l
  | i + 1, l => fyFrom c i (listSwap l (i + 1) (c (i + 1)))

/-- The Fisher-Yates shuffle of shuffleTiles (app.component.ts lines 311-314),
parameterised by the choice sequence c where c i is the draw
Math.floor(Math.random() * (i+1)). -/
def fisherYates (l : List ℕ) (c : ℕ → ℕ) : List ℕ :=
  fyFrom c (l.length - 1) l

/-- The identity post-check of shuffleTiles (app.component.ts lines 316-318):
if the shuffled result is solved, swap positions 0 and 1. -/
def shufflePostCheck (l : List ℕ) : List ℕ :=
  if isSolved l then listSwap l 0 1 else l

/-- Playing the cosmetic animation script (app.component.ts lines 332-335):
every scripted pair is started as a 50ms transition and, when
drawScrambledVideo sees progress 1 (lines 540-548), committed as a swap into
the tiles array.  The committed effect of the whole script is therefore the
left fold of those swaps. -/
def playScript (l : List ℕ) (script : List (ℕ × ℕ)) : List ℕ :=
  script.foldl (fun g p => listSwap g p.1 p.2) l

/-- The whole tile effect of one shuffleTiles call run to completion:
Fisher-Yates, identity post-check, then the committed animation script. -/
def runShuffle (l : List ℕ) (c : ℕ → ℕ) (script : List (ℕ × ℕ)) : List ℕ :=
  playScript (shufflePostCheck (fisherYates l c)) script

end CameraPuzzle

namespace CameraPuzzle

/-- scoring formula of calculateAndSaveScore (app.component.ts lines 633-641).
The outer Math.floor of the source is the identity here because all three
summands are integers. -/
def calculateScore (gridSize : ℕ) (moves : ℤ) (timeTakenMs : ℚ) : ℤ :=
  let difficultyMultiplier : ℤ := (gridSize : ℤ) ^ 4 * 100
  let timePenalty : ℤ := ⌊timeTakenMs / 50⌋
  let movePenalty : ℤ := moves * ((gridSize : ℤ) * 10)
  max 0 (difficultyMultiplier - timePenalty - movePenalty)

/-- The score formula exactly as the specification words it:
max(0, floor(N^4 * 100 - floor(T/50) - M * N * 10)). -/
def specScoreFormula (n : ℕ) (m : ℤ) (t : ℚ) : ℤ :=
  max 0 ((n : ℤ) ^ 4 * 100 - ⌊t / 50⌋ - m * n * 10)

/-- Comparator of the leaderboard sort (app.component.ts line 655): the
callback (a, b) => b.score - a.score orders a before b exactly when
b.score <= a.score, that is, descending by score. -/
def scoreLE (a b : Score) : Bool := decide (b.score ≤ a.score)

/-- The leaderboard bucket update of calculateAndSaveScore (app.component.ts
lines 651-658): push the new entry, sort descending by score, keep the top
five.  Array.prototype.sort with a comparator is embedded as a stable merge
sort with the comparator as the order. -/
def insertScore (bucket : List Score) (ns : Score) : List Score :=
  ((bucket ++ [ns]).mergeSort scoreLE).take 5

/-- The bucket of the leaderboard for a grid size; the TypeScript record is
keyed by the strings 3, 4 and 5 and the component only ever passes those
sizes. -/
def Leaderboard.bucket (lb : Leaderboard) (g : ℕ) : List Score :=
  if g = 3 then lb.b3 else if g = 4 then lb.b4 else lb.b5

/-- The whole-leaderboard effect of calculateAndSaveScore on the bucket keyed
by the grid size. -/
def Leaderboard.saveScore (lb : Leaderboard) (g : ℕ) (ns : Score) : Leaderboard :=
  if g = 3 then { lb with b3 := insertScore lb.b3 ns }
  else if g = 4 then { lb with b4 := insertScore lb.b4 ns }
  else { lb with b5 := insertScore lb.b5 ns }

/-- A sequence of solves inserted one after the other into the same bucket. -/
def saveScores (lb : Leaderboard) (g : ℕ) (ss : List Score) : Leaderboard :=
  ss.foldl (fun acc ns => acc.saveScore g ns) lb

/-- Descending-by-score order of a bucket. -/
def sortedByScoreDesc (l : List Score) : Prop :=
  l.Pairwise fun a b => b.score ≤ a.score

/-- Keyboard keys distinguished by handleKeyDown; every other key takes the
default branch. -/
inductive Key where
  | arrowUp
  | arrowDown
  | arrowLeft
  | arrowRight
  | enter
  | space
  | other
deriving DecidableEq, Repr

/-- The mutable component state of app.component.ts (the signals and private
fields that the game logic reads and writes; purely decorative fields such as
confetti particles and the typing animation are outside the engine and are
not modelled).  The field undoButtonPressed exists only in the part_000
revision. -/
structure App where
  gameState : Phase
  gridSize : ℕ
  tiles : List ℕ
  selectedTileIndex : Option ℕ
  focusedTileIndex : Option ℕ
  isShuffling : Bool
  moveCount : ℤ
  timeTaken : ℚ
  moveHistory : List (ℕ × ℕ)
  hintsRemaining : ℕ
  showGhostHint : Bool
  shakeHintButton : Bool
  showHintTooltip : Bool
  undoButtonPressed : Bool
  currentAnimation : Option AnimationState
  startTime : ℚ
  currentScore : ℤ
  leaderboard : Leaderboard
deriving DecidableEq, Repr

/-- The index computed by handleCanvasClick (app.component.ts lines 355-364)
from canvas-relative click coordinates: floor-divide by the tile size, then
linearise as row * gridSize + col.  The canvas is PUZZLE_DIMENSION square.
No range check is applied to this value anywhere in handleCanvasClick. -/
def clickedIndex (gridSize : ℕ) (x y : ℚ) : ℤ :=
  let tileWidth : ℚ := (PUZZLE_DIMENSION : ℚ) / gridSize
  let tileHeight : ℚ := (PUZZLE_DIMENSION : ℚ) / gridSize
  let col : ℤ := ⌊x / tileWidth⌋
  let row : ℤ := ⌊y / tileHeight⌋
  row * gridSize + col

/-- handleTileInteraction (app.component.ts lines 369-381): first interaction
selects, a second on a different tile records the move, bumps the move count
and begins a 200ms swap transition, a second on the same tile deselects. -/
def handleTileInteraction (s : App) (interactedIndex : ℕ) (now : ℚ) : App :=
  match s.selectedTileIndex with
  | none => { s with selectedTileIndex := some interactedIndex }
  | some selectedIdx =>
    if selectedIdx ≠ interactedIndex then
      { s with
        moveHistory := s.moveHistory ++ [(selectedIdx, interactedIndex)],
        moveCount := s.moveCount + 1,
        currentAnimation := some ⟨selectedIdx, interactedIndex, now, 200⟩,
        selectedTileIndex := none }
    else
      { s with selectedTileIndex := none }

/-- handleCanvasClick (app.component.ts lines 349-367): gated on phase
playing, not shuffling and no in-flight transition, then the computed index is
handed to handleTileInteraction with no range check (the coordinate bounds of
the canvas are the only protection). -/
def handleCanvasClick (s : App) (x y : ℚ) (now : ℚ) : App :=
  if s.gameState ≠ Phase.playing ∨ s.isShuffling ∨ s.currentAnimation.isSome then s
  else handleTileInteraction s (clickedIndex s.gridSize x y).toNat now

/-- handleKeyDown of app.component.ts lines 383-412.  The arrow arithmetic of
this revision is modular: ArrowUp adds gridSize squared minus gridSize and
reduces mod gridSize squared, ArrowLeft on column 0 jumps to the end of the
same row, and so on, so focus wraps around the edges. -/
def handleKeyDown (s : App) (key : Key) (now : ℚ) : App :=
  if s.gameState ≠ Phase.playing ∨ s.isShuffling ∨ s.currentAnimation.isSome then s
  else
    let gridSize := s.gridSize
    let currentFocus := s.focusedTileIndex.getD 0
    match key with
    | Key.arrowUp =>
      let newFocus := (currentFocus + gridSize * gridSize - gridSize) % (gridSize * gridSize)
      { s with focusedTileIndex := some newFocus }
    | Key.arrowDown =>
      let newFocus := (currentFocus + gridSize) % (gridSize * gridSize)
      { s with focusedTileIndex := some newFocus }
    | Key.arrowLeft =>
      let newFocus :=
        if currentFocus % gridSize = 0 then currentFocus + gridSize - 1 else currentFocus - 1
      { s with focusedTileIndex := some newFocus }
    | Key.arrowRight =>
      let newFocus :=
        if (currentFocus + 1) % gridSize = 0 then currentFocus + 1 - gridSize
        else currentFocus + 1
      { s with focusedTileIndex := some newFocus }
    | Key.enter => handleTileInteraction s currentFocus now
    | Key.space => handleTileInteraction s currentFocus now
    | Key.other => s

/-- handleKeyDown of the part_000 revision (lines 1300-1316): row and column
are clamped with Math.max and Math.min, so focus never wraps.  The clamp
arithmetic is over the integers exactly as the source computes it. -/
def handleKeyDownChallenge (s : App) (key : Key) (now : ℚ) : App :=
  if s.gameState ≠ Phase.playing ∨ s.isShuffling ∨ s.currentAnimation.isSome then s
  else
    let gridSize := s.gridSize
    let currentFocus := s.focusedTileIndex.getD 0
    let row : ℤ := (currentFocus / gridSize : ℕ)
    let col : ℤ := (currentFocus % gridSize : ℕ)
    match key with
    | Key.arrowUp =>
      let newFocus := (max 0 (row - 1) * gridSize + col).toNat
      { s with focusedTileIndex := some newFocus }
    | Key.arrowDown =>
      let newFocus := (min ((gridSize : ℤ) - 1) (row + 1) * gridSize + col).toNat
      { s with focusedTileIndex := some newFocus }
    | Key.arrowLeft =>
      let newFocus := (row * gridSize + max 0 (col - 1)).toNat
      { s with focusedTileIndex := some newFocus }
    | Key.arrowRight =>
      let newFocus := (row * gridSize + min ((gridSize : ℤ) - 1) (col + 1)).toNat
      { s with focusedTileIndex := some newFocus }
    | Key.enter => handleTileInteraction s currentFocus now
    | Key.space => handleTileInteraction s currentFocus now
    | Key.other => s

/-- peekGhostHint (app.component.ts lines 211-231).  With budget left it shows
the ghost preview and decrements the budget; at budget 0 it only fires the
shake and tooltip feedback.  The timer callbacks that later clear these flags
are separate events.  Note that the source checks neither the phase, nor the
shuffle flag, nor an in-flight transition. -/
def peekGhostHint (s : App) : App :=
  if 0 < s.hintsRemaining then
    { s with showGhostHint := true, hintsRemaining := s.hintsRemaining - 1 }
  else
    { s with shakeHintButton := true, showHintTooltip := true }

/-- undoLastMove (app.component.ts lines 449-465): no-op when the history is
empty or a transition is in flight; otherwise pop the last recorded pair,
decrement the move count (this revision has no floor at 0) and swap the two
positions back immediately. -/
def undoLastMove (s : App) : App :=
  if s.moveHistory.length = 0 ∨ s.currentAnimation.isSome then s
  else
    match s.moveHistory.getLast? with
    | none => s
    | some mv =>
      { s with
        moveHistory := s.moveHistory.dropLast,
        moveCount := s.moveCount - 1,
        tiles := listSwap s.tiles mv.1 mv.2 }

/-- undoLastMove of the part_000 revision (lines 1346-1359): same logic, with
the button-press flash flag and the move count floored at 0 by
c > 0 ? c - 1 : 0. -/
def undoLastMoveChallenge (s : App) : App :=
  if s.moveHistory.length = 0 ∨ s.currentAnimation.isSome then s
  else
    let s1 := { s with undoButtonPressed := true }
    match s1.moveHistory.getLast? with
    | none => s1
    | some mv =>
      { s1 with
        moveHistory := s1.moveHistory.dropLast,
        moveCount := if 0 < s1.moveCount then s1.moveCount - 1 else 0,
        tiles := listSwap s1.tiles mv.1 mv.2 }

/-- calculateAndSaveScore (app.component.ts lines 633-661) as a state update:
store the computed score and insert the new Score record into the bucket for
the current grid size.  nowDate stands for Date.now(). -/
def calculateAndSaveScore (s : App) (timeTakenMs : ℚ) (nowDate : ℤ) : App :=
  let score := calculateScore s.gridSize s.moveCount timeTakenMs
  let newScore : Score := ⟨score, s.moveCount, timeTakenMs, nowDate⟩
  { s with
    currentScore := score,
    leaderboard := s.leaderboard.saveScore s.gridSize newScore }

/-- checkWinCondition (app.component.ts lines 600-610) without the decorative
confetti and victory-text effects: when the grid is solved, record the elapsed
time, compute and save the score, and move to the won phase. -/
def checkWinCondition (s : App) (now : ℚ) (nowDate : ℤ) : App :=
  if isSolved s.tiles then
    let timeTakenMs := now - s.startTime
    let s1 := calculateAndSaveScore { s with timeTaken := timeTakenMs } timeTakenMs nowDate
    { s1 with gameState := Phase.won }
  else s

/-- The commit step of drawScrambledVideo (app.component.ts lines 540-548):
when the in-flight transition reaches progress 1 its two positions are
swapped in the tiles array, the transition is cleared, and, unless a shuffle
script is playing, the win condition is evaluated. -/
def commitAnimation (s : App) (now : ℚ) (nowDate : ℤ) : App :=
  match s.currentAnimation with
  | none => s
  | some anim =>
    let s1 := { s with
      tiles := listSwap s.tiles anim.index1 anim.index2,
      currentAnimation := none }
    if s1.isShuffling then s1 else checkWinCondition s1 now nowDate

/-- The tile-state effect of one completed shuffleTiles call (app.component.ts
lines 307-338): the shuffle flag is raised, the Fisher-Yates result with its
post-check is committed, the scripted 50ms transitions each commit their swap,
and the flag is lowered again when the script ends. -/
def shuffleTilesRun (s : App) (c : ℕ → ℕ) (script : List (ℕ × ℕ)) : App :=
  { s with
    tiles := runShuffle s.tiles c script,
    isShuffling := false,
    currentAnimation := none }

/-- initializePuzzle (app.component.ts lines 189-204) followed by the shuffle
it triggers: identity grid, hint budget from the grid size (3 to 5 hints, 4 to
4, otherwise 3), counters and history reset, focus on tile 0, start timestamp
taken, then shuffleTiles. -/
def initializePuzzle (s : App) (now : ℚ) (c : ℕ → ℕ) (script : List (ℕ × ℕ)) : App :=
  let gridSize := s.gridSize
  let s1 := { s with
    tiles := List.range (gridSize * gridSize),
    hintsRemaining := if gridSize = 3 then 5 else if gridSize = 4 then 4 else 3,
    moveCount := 0,
    timeTaken := 0,
    moveHistory := [],
    focusedTileIndex := some (0 : ℕ),
    startTime := now }
  shuffleTilesRun s1 c script

/-- The guard that the specification asserts for all input paths: phase
playing, no transition in flight, shuffle flag down. -/
def inputGuardOK (s : App) : Prop :=
  s.gameState = Phase.playing ∧ s.isShuffling = false ∧ s.currentAnimation = none

/-- The timed-session slice of the part_000 revision: the fields read and
written by runChallengeTimer, endTimedChallenge and the stopGame cleanup they
trigger. -/
structure ChallengeState where
  gameState : Phase
  gridSize : ℕ
  customDuration : ℕ
  challengeTimeRemaining : ℤ
  puzzlesCleared : ℕ
  sessionTotalMoves : ℤ
  finalTimedStats : Option TimedChallengeStats
  tiles : List ℕ
  isShuffling : Bool
  showGhostHint : Bool
deriving DecidableEq, Repr

/-- The stopGame cleanup of part_000 (lines 1194-1216) on the timed-session
slice: the ghost hint is hidden, the tiles are cleared and the shuffle flag is
lowered.  Timer handles are cancelled, which the event model captures by not
applying further ticks. -/
def stopGameChallenge (s : ChallengeState) : ChallengeState :=
  { s with showGhostHint := false, tiles := [], isShuffling := false }

/-- endTimedChallenge of part_000 (lines 1110-1120): stop the game, snapshot
the session statistics, and enter the times-up phase. -/
def endTimedChallenge (s : ChallengeState) : ChallengeState :=
  let s1 := stopGameChallenge s
  { s1 with
    finalTimedStats :=
      some ⟨s1.puzzlesCleared, s1.sessionTotalMoves, s1.gridSize, s1.customDuration⟩,
    gameState := Phase.timesUp }

/-- One tick of the repeating 1-second interval of runChallengeTimer
(part_000 lines 1100-1108): decrement the remaining time by 1000ms and, when
it has reached 0 or below, end the session. -/
def challengeTick (s : ChallengeState) : ChallengeState :=
  let s1 := { s with challengeTimeRemaining := s.challengeTimeRemaining - 1000 }
  if s1.challengeTimeRemaining ≤ 0 then endTimedChallenge s1 else s1

/-- The timed-session state right after startCustomGame in timed mode
(part_000 lines 1046-1058) and the countdown completing into the playing
phase: counters zeroed, remaining time set to the chosen duration in minutes
times 60000ms, timer started. -/
def startTimedChallenge (durationMinutes gridSize : ℕ) : ChallengeState :=
  { gameState := Phase.playing
    gridSize := gridSize
    customDuration := durationMinutes
    challengeTimeRemaining := (durationMinutes : ℤ) * 60 * 1000
    puzzlesCleared := 0
    sessionTotalMoves := 0
    finalTimedStats := none
    tiles := List.range (gridSize * gridSize)
    isShuffling := false
    showGhostHint := false }

/-- An empty leaderboard, the startup default. -/
def emptyLeaderboard : Leaderboard := ⟨[], [], []⟩

/-- A concrete reachable mid-game state on a 3x3 grid, used to instantiate
the universally quantified theorems below. -/
def samplePlaying : App :=
  { gameState := Phase.playing
    gridSize := 3
    tiles := [1, 0, 2, 3, 4, 5, 6, 7, 8]
    selectedTileIndex := none
    focusedTileIndex := some 0
    isShuffling := false
    moveCount := 0
    timeTaken := 0
    moveHistory := []
    hintsRemaining := 5
    showGhostHint := false
    shakeHintButton := false
    showHintTooltip := false
    undoButtonPressed := false
    currentAnimation := none
    startTime := 0
    currentScore := 0
    leaderboard := emptyLeaderboard }

/-- A concrete state in the won phase with hint budget left: the ghost-hint
request still fires there because peekGhostHint checks only the budget. -/
def sampleWon : App :=
  { samplePlaying with gameState := Phase.won }

/-- A concrete playing state with one recorded, committed move (positions 0
and 2 were swapped), for the undo theorems. -/
def sampleAfterMove : App :=
  { samplePlaying with
    tiles := [2, 0, 1, 3, 4, 5, 6, 7, 8]
    moveHistory := [(0, 2)]
    moveCount := 1 }

/-! Helper lemmas about the grid primitives. -/

theorem listSwap_length (l : List ℕ) (i j : ℕ) : (listSwap l i j).length = l.length := by
  simp [listSwap]

theorem swapCore_perm (t : List ℕ) (k x : ℕ) (hk : k < t.length) :
    (t.getD k 0 :: t.set k x).Perm (x :: t) := by
  induction t generalizing k with
  | nil => simp at hk
  | cons y t ih =>
    cases k with
    | zero =>
      simp only [List.getD_cons_zero, List.set_cons_zero]
      exact List.Perm.swap x y t
    | succ m =>
      have hm : m < t.length := by simpa using hk
      simp only [List.getD_cons_succ, List.set_cons_succ]
      exact (List.Perm.swap y (t.getD m 0) (t.set m x)).trans
        (((ih m hm).cons y).trans (List.Perm.swap x y t))

theorem listSwap_perm (l : List ℕ) (i j : ℕ) (hi : i < l.length) (hj : j < l.length) :
    (listSwap l i j).Perm l := by
  induction l generalizing i j with
  | nil => simp at hi
  | cons x t ih =>
    cases i with
    | zero =>
      cases j with
      | zero =>
        simp [listSwap]
      | succ m =>
        have hm : m < t.length := by simpa using hj
        simp only [listSwap, List.getD_cons_zero, List.getD_cons_succ, List.set_cons_zero,
          List.set_cons_succ]
        exact swapCore_perm t m x hm
    | succ n =>
      cases j with
      | zero =>
        have hn : n < t.length := by simpa using hi
        simp only [listSwap, List.getD_cons_zero, List.getD_cons_succ, List.set_cons_zero,
          List.set_cons_succ]
        exact swapCore_perm t n x hn
      | succ m =>
        have hn : n < t.length := by simpa using hi
        have hm : m < t.length := by simpa using hj
        simp only [listSwap, List.getD_cons_succ, List.set_cons_succ]
        exact (ih n m hn hm).cons x

theorem listSwap_getElem? (l : List ℕ) (i j k : ℕ) (hi : i < l.length) (hj : j < l.length) :
    (listSwap l i j)[k]? =
      if k = j then some (l.getD i 0) else if k = i then some (l.getD j 0) else l[k]? := by
  simp only [listSwap, List.getElem?_set, List.length_set, hi, hj, if_true]
  rcases eq_or_ne k j with rfl | hkj
  · simp [hj]
  · rcases eq_or_ne k i with rfl | hki
    · simp [hi, hkj, Ne.symm hkj]
    · simp [hkj, hki, Ne.symm hkj, Ne.symm hki]

theorem listSwap_involutive (l : List ℕ) (i j : ℕ) (hi : i < l.length) (hj : j < l.length) :
    listSwap (listSwap l i j) i j = l := by
  have hi1 : i < (listSwap l i j).length := by simpa [listSwap_length] using hi
  have hj1 : j < (listSwap l i j).length := by simpa [listSwap_length] using hj
  apply List.ext_getElem?
  intro n
  rw [listSwap_getElem? _ i j n hi1 hj1]
  rw [List.getD_eq_getElem?_getD, List.getD_eq_getElem?_getD]
  rw [listSwap_getElem? _ i j i hi hj, listSwap_getElem? _ i j j hi hj]
  rcases eq_or_ne n j with rfl | hnj
  · rcases eq_or_ne i n with rfl | hin
    · simp [List.getD_eq_getElem?_getD, List.getElem?_eq_getElem hi]
    · simp [hin, Ne.symm hin, List.getD_eq_getElem?_getD, List.getElem?_eq_getElem hj]
  · rcases eq_or_ne n i with rfl | hni
    · simp [hnj, List.getD_eq_getElem?_getD, List.getElem?_eq_getElem hi]
    · rw [listSwap_getElem? _ i j n hi hj]
      simp [hnj, hni]

theorem fyFrom_length (c : ℕ → ℕ) (i : ℕ) (l : List ℕ) : (fyFrom c i l).length = l.length := by
  induction i generalizing l with
  | zero => rfl
  | succ n ih => rw [fyFrom, ih, listSwap_length]

theorem fyFrom_perm (c : ℕ → ℕ) (hc : ∀ k, c k ≤ k) (i : ℕ) :
    ∀ l : List ℕ, i < l.length → (fyFrom c i l).Perm l := by
  induction i with
  | zero => intro l _; exact List.Perm.refl l
  | succ n ih =>
    intro l hl
    have hcl : c (n + 1) < l.length := lt_of_le_of_lt (hc (n + 1)) hl
    have hlen : n < (listSwap l (n + 1) (c (n + 1))).length := by rw [listSwap_length]; omega
    exact (ih _ hlen).trans (listSwap_perm l (n + 1) (c (n + 1)) hl hcl)

theorem fisherYates_length (l : List ℕ) (c : ℕ → ℕ) : (fisherYates l c).length = l.length :=
  fyFrom_length c (l.length - 1) l

theorem fisherYates_perm (l : List ℕ) (c : ℕ → ℕ) (hc : ∀ k, c k ≤ k) :
    (fisherYates l c).Perm l := by
  cases l with
  | nil => exact List.Perm.refl _
  | cons x t =>
    apply fyFrom_perm c hc
    simp

theorem isSolved_iff (l : List ℕ) : isSolved l = true ↔ ∀ i < l.length, l.getD i 0 = i := by
  simp [isSolved]

theorem shufflePostCheck_length (l : List ℕ) : (shufflePostCheck l).length = l.length := by
  rw [shufflePostCheck]
  split_ifs
  · exact listSwap_length l 0 1
  · rfl

theorem shufflePostCheck_perm (l : List ℕ) (h2 : 2 ≤ l.length) :
    (shufflePostCheck l).Perm l := by
  rw [shufflePostCheck]
  split_ifs
  · exact listSwap_perm l 0 1 (by omega) (by omega)
  · exact List.Perm.refl l

theorem isSolved_shufflePostCheck (l : List ℕ) (h2 : 2 ≤ l.length) :
    isSolved (shufflePostCheck l) = false := by
  by_cases h : isSolved l = true
  · rw [shufflePostCheck, if_pos h]
    have h0 : 0 < l.length := by omega
    have h1 : 1 < l.length := by omega
    have hv : (listSwap l 0 1).getD 0 0 = l.getD 1 0 := by
      rw [List.getD_eq_getElem?_getD, listSwap_getElem? l 0 1 0 h0 h1]
      simp
    have hl1 : l.getD 1 0 = 1 := (isSolved_iff l).1 h 1 h1
    by_contra hfalse
    have htrue : isSolved (listSwap l 0 1) = true := by
      revert hfalse
      cases isSolved (listSwap l 0 1) <;> simp
    have h0len : 0 < (listSwap l 0 1).length := by rw [listSwap_length]; omega
    have := (isSolved_iff _).1 htrue 0 h0len
    rw [hv, hl1] at this
    exact one_ne_zero this
  · rw [shufflePostCheck, if_neg h]
    revert h
    cases isSolved l <;> simp

theorem playScript_cons (l : List ℕ) (p : ℕ × ℕ) (rest : List (ℕ × ℕ)) :
    playScript l (p :: rest) = playScript (listSwap l p.1 p.2) rest := rfl

theorem playScript_length (l : List ℕ) (script : List (ℕ × ℕ)) :
    (playScript l script).length = l.length := by
  induction script generalizing l with
  | nil => rfl
  | cons p rest ih => rw [playScript_cons, ih, listSwap_length]

theorem playScript_perm (l : List ℕ) (script : List (ℕ × ℕ))
    (h : ∀ p ∈ script, p.1 < l.length ∧ p.2 < l.length) : (playScript l script).Perm l := by
  induction script generalizing l with
  | nil => exact List.Perm.refl l
  | cons p rest ih =>
    have hp := h p (List.mem_cons_self p rest)
    rw [playScript_cons]
    have hrest : ∀ q ∈ rest, q.1 < (listSwap l p.1 p.2).length ∧ q.2 < (listSwap l p.1 p.2).length := by
      intro q hq
      rw [listSwap_length]
      exact h q (List.mem_cons_of_mem p hq)
    exact (ih _ hrest).trans (listSwap_perm l p.1 p.2 hp.1 hp.2)

theorem runShuffle_perm (l : List ℕ) (c : ℕ → ℕ) (script : List (ℕ × ℕ))
    (hc : ∀ k, c k ≤ k) (h2 : 2 ≤ l.length)
    (hs : ∀ p ∈ script, p.1 < l.length ∧ p.2 < l.length) : (runShuffle l c script).Perm l := by
  have hfl : (fisherYates l c).length = l.length := fisherYates_length l c
  have hpl : (shufflePostCheck (fisherYates l c)).length = l.length := by
    rw [shufflePostCheck_length, hfl]
  have hs1 : ∀ p ∈ script,
      p.1 < (shufflePostCheck (fisherYates l c)).length ∧
        p.2 < (shufflePostCheck (fisherYates l c)).length := by
    intro p hp
    rw [hpl]
    exact hs p hp
  exact (playScript_perm _ script hs1).trans
    ((shufflePostCheck_perm _ (by omega)).trans (fisherYates_perm l c hc))

/-! Claim theorems. -/

/-- C1, amended: for every grid size N in 3, 4, 5, every Fisher-Yates draw
sequence and every in-range animation script, the grid immediately after the
Fisher-Yates shuffle and the identity post-check is unsolved, and the grid
after the cosmetic script has committed is still a permutation of
0 .. N^2 - 1.  (The original claim also asserted isSolved = false after the
script; that part fails, see the counterexample.) -/
theorem spec_c1_shuffle (n : ℕ) (hn : n = 3 ∨ n = 4 ∨ n = 5) (c : ℕ → ℕ)
    (hc : ∀ k, c k ≤ k) (script : List (ℕ × ℕ))
    (hs : ∀ p ∈ script, p.1 < n * n ∧ p.2 < n * n) :
    isSolved (shufflePostCheck (fisherYates (List.range (n * n)) c)) = false ∧
    (runShuffle (List.range (n * n)) c script).Perm (List.range (n * n)) := by
  have h2 : 2 ≤ (List.range (n * n)).length := by
    rcases hn with rfl | rfl | rfl <;> simp
  constructor
  · apply isSolved_shufflePostCheck
    rw [fisherYates_length]
    exact h2
  · apply runShuffle_perm _ _ _ hc h2
    simpa using hs

/-- Witness for C1 at N = 3, the identity draw sequence and the empty
script. -/
theorem spec_c1_shuffle_witness :
    isSolved (shufflePostCheck (fisherYates (List.range (3 * 3)) (fun k => k))) = false ∧
    (runShuffle (List.range (3 * 3)) (fun k => k) []).Perm (List.range (3 * 3)) :=
  spec_c1_shuffle 3 (Or.inl rfl) (fun k => k) (fun k => le_refl k) [] (by simp)

/-- Counterexample to C1 as stated: with the Fisher-Yates draws all equal to
their index (a legal draw of Math.floor(Math.random() * (i+1))), the shuffle
produces the identity, the post-check swaps positions 0 and 1, and a legal
2 * tileCount animation script whose first committed pair is (0, 1) puts the
grid back into the solved state, so isSolved is true after the shuffle call
completes. -/
theorem spec_c1_cex :
    isSolved (runShuffle (List.range (3 * 3)) (fun k => k)
      ((0, 1) :: List.replicate 17 (0, 0))) = true ∧
    ((0, 1) :: List.replicate 17 (0, 0)).length = 2 * (3 * 3) ∧
    (∀ p ∈ (0, 1) :: List.replicate 17 (0, 0), p.1 < 3 * 3 ∧ p.2 < 3 * 3) := by
  refine ⟨by decide, by decide, by decide⟩

/-- C3, amended: the committed effect of the cosmetic shuffle-animation
script is the in-place application of its transpositions: the grid after the
script is a rearrangement of the same tiles with unchanged length — but it is
not in general equal to the grid before the script, because every scripted
pair that completes is committed into the tiles array (see the
counterexample). -/
theorem spec_c3_scriptFrame (g : List ℕ) (script : List (ℕ × ℕ))
    (h : ∀ p ∈ script, p.1 < g.length ∧ p.2 < g.length) :
    (playScript g script).Perm g ∧ (playScript g script).length = g.length :=
  ⟨playScript_perm g script h, playScript_length g script⟩

/-- Witness for C3 on a concrete shuffled 3x3 grid and a two-pair script. -/
theorem spec_c3_scriptFrame_witness :
    (playScript [1, 0, 2, 3, 4, 5, 6, 7, 8] [(0, 2), (2, 0)]).Perm
      [1, 0, 2, 3, 4, 5, 6, 7, 8] ∧
    (playScript [1, 0, 2, 3, 4, 5, 6, 7, 8] [(0, 2), (2, 0)]).length =
      ([1, 0, 2, 3, 4, 5, 6, 7, 8] : List ℕ).length :=
  spec_c3_scriptFrame [1, 0, 2, 3, 4, 5, 6, 7, 8] [(0, 2), (2, 0)] (by decide)

/-- Counterexample to C3 as stated: a full-length legal script (18 pairs for
a 3x3 grid, matching tileCount * 2 of the source) changes the committed grid,
because drawScrambledVideo commits every completed scripted transition into
the tiles array. -/
theorem spec_c3_cex :
    playScript [1, 0, 2, 3, 4, 5, 6, 7, 8] ((0, 1) :: List.replicate 17 (0, 0)) ≠
      [1, 0, 2, 3, 4, 5, 6, 7, 8] ∧
    (∀ p ∈ (0, 1) :: List.replicate 17 (0, 0),
      p.1 < ([1, 0, 2, 3, 4, 5, 6, 7, 8] : List ℕ).length ∧
      p.2 < ([1, 0, 2, 3, 4, 5, 6, 7, 8] : List ℕ).length) := by
  refine ⟨by decide, by decide⟩

/-- C5: the score saved on a classic solve is
max(0, floor(N^4 * 100 - floor(T/50) - M * N * 10)), it is non-increasing in
the elapsed time and in the move count for a fixed grid size, and at N = 3,
M = 10, T = 60000ms it is 6600. -/
theorem spec_c5_score (n : ℕ) (m : ℤ) (t : ℚ) :
    calculateScore n m t = specScoreFormula n m t ∧
    (∀ t2, t ≤ t2 → calculateScore n m t2 ≤ calculateScore n m t) ∧
    (∀ m2, m ≤ m2 → calculateScore n m2 t ≤ calculateScore n m t) ∧
    calculateScore 3 10 60000 = 6600 := by
  refine ⟨?_, ?_, ?_, ?_⟩
  · rw [calculateScore, specScoreFormula]
    congr 1
    ring
  · intro t2 ht
    rw [calculateScore, calculateScore]
    apply max_le_max (le_refl (0 : ℤ))
    have hfl : ⌊t / 50⌋ ≤ ⌊t2 / 50⌋ := by
      apply Int.floor_le_floor
      exact div_le_div_of_nonneg_right ht (by norm_num) |>.trans (le_refl _)
    omega
  · intro m2 hm
    rw [calculateScore, calculateScore]
    apply max_le_max (le_refl (0 : ℤ))
    have hmul : m * ((n : ℤ) * 10) ≤ m2 * ((n : ℤ) * 10) := by
      apply mul_le_mul_of_nonneg_right hm
      positivity
    omega
  · rw [calculateScore]
    rw [show (60000 : ℚ) / 50 = ((1200 : ℤ) : ℚ) by norm_num, Int.floor_intCast]
    norm_num

/-- Witness for C5 at N = 3, M = 10, T = 60000, with a longer time 70000 and
a larger move count 12. -/
theorem spec_c5_score_witness :
    calculateScore 3 10 60000 = specScoreFormula 3 10 60000 ∧
    calculateScore 3 10 70000 ≤ calculateScore 3 10 60000 ∧
    calculateScore 3 12 60000 ≤ calculateScore 3 10 60000 ∧
    calculateScore 3 10 60000 = 6600 := by
  have h := spec_c5_score 3 10 60000
  exact ⟨h.1, h.2.1 70000 (by norm_num), h.2.2.1 12 (by norm_num), h.2.2.2⟩

theorem scoreLE_trans (a b c : Score) (hab : scoreLE a b = true) (hbc : scoreLE b c = true) :
    scoreLE a c = true := by
  simp only [scoreLE, decide_eq_true_eq] at *
  exact hbc.trans hab

theorem scoreLE_total (a b : Score) : (scoreLE a b || scoreLE b a) = true := by
  simp only [scoreLE, Bool.or_eq_true, decide_eq_true_eq]
  exact le_total b.score a.score

theorem insertScore_sorted (bucket : List Score) (ns : Score) :
    sortedByScoreDesc (insertScore bucket ns) ∧ (insertScore bucket ns).length ≤ 5 := by
  constructor
  · have hs := List.sorted_mergeSort scoreLE_trans scoreLE_total (bucket ++ [ns])
    have hp : sortedByScoreDesc ((bucket ++ [ns]).mergeSort scoreLE) := by
      apply hs.imp
      intro a b hab
      simpa [scoreLE] using hab
    exact List.Pairwise.sublist (List.take_sublist 5 _) hp
  · rw [insertScore]
    simp [List.length_take]

theorem bucket_saveScore (lb : Leaderboard) (g : ℕ) (hg : g = 3 ∨ g = 4 ∨ g = 5) (ns : Score) :
    (lb.saveScore g ns).bucket g = insertScore (lb.bucket g) ns := by
  rcases hg with rfl | rfl | rfl <;> simp [Leaderboard.saveScore, Leaderboard.bucket]

/-- C6: for every grid size N in 3, 4, 5 and every sequence of score
insertions, if the bucket for N starts sorted descending by score with at
most five entries, it stays sorted descending with at most five entries
after every insertion (instantiate the sequence at any prefix). -/
theorem spec_c6_leaderboard (g : ℕ) (hg : g = 3 ∨ g = 4 ∨ g = 5) (lb : Leaderboard)
    (ss : List Score) (hsorted : sortedByScoreDesc (lb.bucket g))
    (hlen : (lb.bucket g).length ≤ 5) :
    sortedByScoreDesc ((saveScores lb g ss).bucket g) ∧
    ((saveScores lb g ss).bucket g).length ≤ 5 := by
  induction ss generalizing lb with
  | nil => exact ⟨hsorted, hlen⟩
  | cons ns rest ih =>
    have hstep := insertScore_sorted (lb.bucket g) ns
    have hb := bucket_saveScore lb g hg ns
    have hrw : saveScores lb g (ns :: rest) = saveScores (lb.saveScore g ns) g rest := rfl
    rw [hrw]
    exact ih (lb.saveScore g ns) (by rw [hb]; exact hstep.1) (by rw [hb]; exact hstep.2)

/-- Witness for C6: one insertion into the empty bucket for N = 3. -/
theorem spec_c6_leaderboard_witness :
    sortedByScoreDesc ((saveScores emptyLeaderboard 3 [⟨100, 1, 1000, 0⟩]).bucket 3) ∧
    ((saveScores emptyLeaderboard 3 [⟨100, 1, 1000, 0⟩]).bucket 3).length ≤ 5 :=
  spec_c6_leaderboard 3 (Or.inl rfl) emptyLeaderboard [⟨100, 1, 1000, 0⟩]
    (by simp [Leaderboard.bucket, emptyLeaderboard, sortedByScoreDesc])
    (by simp [Leaderboard.bucket, emptyLeaderboard])

/-- C7: a fresh puzzle has 5 hints on a 3x3 grid, 4 on 4x4 and 3 on 5x5, and
a hint request at budget 0 leaves the budget at 0 and the ghost-preview flag
unchanged. -/
theorem spec_c7_hints (s : App) (now : ℚ) (c : ℕ → ℕ) (script : List (ℕ × ℕ)) :
    ((s.gridSize = 3 → (initializePuzzle s now c script).hintsRemaining = 5) ∧
      (s.gridSize = 4 → (initializePuzzle s now c script).hintsRemaining = 4) ∧
      (s.gridSize = 5 → (initializePuzzle s now c script).hintsRemaining = 3)) ∧
    (s.hintsRemaining = 0 →
      (peekGhostHint s).hintsRemaining = 0 ∧
      (peekGhostHint s).showGhostHint = s.showGhostHint) := by
  constructor
  · refine ⟨?_, ?_, ?_⟩ <;>
      · intro hg
        simp [initializePuzzle, shuffleTilesRun, hg]
  · intro h0
    simp [peekGhostHint, h0]

/-- Witness for C7: a fresh 3x3 puzzle has 5 hints, and a budget-0 state is
unchanged in budget and ghost flag by a hint request. -/
theorem spec_c7_hints_witness :
    (initializePuzzle samplePlaying 0 (fun k => k) []).hintsRemaining = 5 ∧
    (peekGhostHint { samplePlaying with hintsRemaining := 0 }).hintsRemaining = 0 := by
  have h1 := spec_c7_hints samplePlaying 0 (fun k => k) []
  have h2 := spec_c7_hints { samplePlaying with hintsRemaining := 0 } 0 (fun k => k) []
  exact ⟨h1.1.1 rfl, (h2.2 rfl).1⟩

/-- C2, amended: the click and key handlers are no-ops whenever the guard
(phase playing, shuffle flag down, no transition in flight) fails; the hint
request, however, is gated only by the hint budget and the undo only by a
nonempty history and the absence of a transition: both commute with arbitrary
changes of the phase and of the shuffle flag, so neither is a no-op merely
because the phase is not playing or a shuffle is running (see the
counterexample). -/
theorem spec_c2_guards (s : App) (x y now : ℚ) (key : Key) (p : Phase) (b : Bool) :
    (¬ inputGuardOK s →
      handleCanvasClick s x y now = s ∧ handleKeyDown s key now = s ∧
        handleKeyDownChallenge s key now = s) ∧
    peekGhostHint { s with gameState := p, isShuffling := b } =
      { peekGhostHint s with gameState := p, isShuffling := b } ∧
    undoLastMove { s with gameState := p, isShuffling := b } =
      { undoLastMove s with gameState := p, isShuffling := b } := by
  refine ⟨?_, ?_, ?_⟩
  · intro hng
    have hcond : s.gameState ≠ Phase.playing ∨ s.isShuffling = true ∨
        s.currentAnimation.isSome = true := by
      by_cases hA : s.gameState = Phase.playing
      · by_cases hB : s.isShuffling = true
        · exact Or.inr (Or.inl hB)
        · refine Or.inr (Or.inr ?_)
          cases hanim : s.currentAnimation with
          | none =>
            exact absurd ⟨hA, by simpa using hB, hanim⟩ hng
          | some a => simp
      · exact Or.inl hA
    refine ⟨?_, ?_, ?_⟩
    · rw [handleCanvasClick, if_pos hcond]
    · rw [handleKeyDown, if_pos hcond]
    · rw [handleKeyDownChallenge, if_pos hcond]
  · by_cases hb : 0 < s.hintsRemaining <;> simp [peekGhostHint, hb]
  · by_cases hc : s.moveHistory = [] ∨ s.currentAnimation.isSome = true
    · simp [undoLastMove, hc]
    · cases hl : s.moveHistory.getLast? with
      | none => simp [undoLastMove, hc, hl]
      | some mv => simp [undoLastMove, hc, hl]

/-- Counterexample to C2 as stated: in the won phase the guard does not hold,
yet a hint request still consumes budget and raises the ghost flag, and an
undo still mutates the grid. -/
theorem spec_c2_cex :
    sampleWon.gameState ≠ Phase.playing ∧
    peekGhostHint sampleWon ≠ sampleWon ∧
    (peekGhostHint sampleWon).hintsRemaining = 4 ∧
    (undoLastMove { sampleAfterMove with gameState := Phase.won }).tiles ≠
      { sampleAfterMove with gameState := Phase.won }.tiles := by
  refine ⟨by decide, by decide, by decide, by decide⟩

/-- Witness for C2: the guard-violating won state is left unchanged by a
click, and the hint request commutes with a phase change on a concrete
state. -/
theorem spec_c2_guards_witness :
    handleCanvasClick sampleWon 0 0 0 = sampleWon ∧
    peekGhostHint { samplePlaying with gameState := Phase.won, isShuffling := false } =
      { peekGhostHint samplePlaying with gameState := Phase.won, isShuffling := false } := by
  refine ⟨((spec_c2_guards sampleWon 0 0 0 Key.arrowUp Phase.won false).1 ?_).1,
    (spec_c2_guards samplePlaying 0 0 0 Key.arrowUp Phase.won false).2.1⟩
  intro hg
  exact absurd hg.1 (by decide)

theorem checkWinCondition_frame (s : App) (now : ℚ) (d : ℤ) :
    (checkWinCondition s now d).tiles = s.tiles ∧
    (checkWinCondition s now d).moveHistory = s.moveHistory ∧
    (checkWinCondition s now d).moveCount = s.moveCount ∧
    (checkWinCondition s now d).currentAnimation = s.currentAnimation := by
  rw [checkWinCondition]
  split_ifs <;> simp [calculateAndSaveScore]

theorem commitAnimation_frame (u : App) (anim : AnimationState)
    (h : u.currentAnimation = some anim) (now : ℚ) (d : ℤ) :
    (commitAnimation u now d).tiles = listSwap u.tiles anim.index1 anim.index2 ∧
    (commitAnimation u now d).moveHistory = u.moveHistory ∧
    (commitAnimation u now d).moveCount = u.moveCount ∧
    (commitAnimation u now d).currentAnimation = none := by
  rw [commitAnimation, h]
  by_cases hsh : u.isShuffling = true
  · simp [hsh]
  · simp only [Bool.not_eq_true] at hsh
    simp only [hsh, Bool.false_eq_true, if_false]
    have hframe := checkWinCondition_frame
      { u with tiles := listSwap u.tiles anim.index1 anim.index2, currentAnimation := none }
      now d
    rw [hsh] at hframe
    simpa using hframe

theorem undoLastMove_pop (u : App) (h0 : List (ℕ × ℕ)) (a b : ℕ)
    (hh : u.moveHistory = h0 ++ [(a, b)]) (hanim : u.currentAnimation = none) :
    undoLastMove u =
      { u with
        moveHistory := h0,
        moveCount := u.moveCount - 1,
        tiles := listSwap u.tiles a b } := by
  have hcond : ¬(u.moveHistory.length = 0 ∨ u.currentAnimation.isSome = true) := by
    simp [hh, hanim]
  rw [undoLastMove, if_neg hcond]
  have hl : u.moveHistory.getLast? = some (a, b) := by
    rw [hh]
    exact List.getLast?_concat h0
  rw [hl]
  have hd : u.moveHistory.dropLast = h0 := by
    rw [hh]
    exact List.dropLast_concat
  rw [hd]

/-- C4: undo right after a committed swap of two distinct in-range positions
restores the pre-swap grid, history and move count exactly; with an empty
history or an in-flight transition undo is the identity on the state; and
whenever the move count dominates the history length (an invariant that every
engine operation preserves, last conjunct), a firing undo decrements the move
count by one and never drives it below 0. -/
theorem spec_c4_undo (s : App) (a b : ℕ) (now : ℚ) (nowDate : ℤ) :
    (s.selectedTileIndex = some a → s.currentAnimation = none → a ≠ b →
      a < s.tiles.length → b < s.tiles.length →
      (undoLastMove (commitAnimation (handleTileInteraction s b now) now nowDate)).tiles =
        s.tiles ∧
      (undoLastMove (commitAnimation (handleTileInteraction s b now) now nowDate)).moveHistory =
        s.moveHistory ∧
      (undoLastMove (commitAnimation (handleTileInteraction s b now) now nowDate)).moveCount =
        s.moveCount) ∧
    (s.moveHistory = [] ∨ s.currentAnimation.isSome = true → undoLastMove s = s) ∧
    (s.moveHistory ≠ [] → s.currentAnimation = none →
      (s.moveHistory.length : ℤ) ≤ s.moveCount →
      (undoLastMove s).moveCount = s.moveCount - 1 ∧ 0 ≤ (undoLastMove s).moveCount) ∧
    ((s.moveHistory.length : ℤ) ≤ s.moveCount →
      ((handleTileInteraction s b now).moveHistory.length : ℤ) ≤
        (handleTileInteraction s b now).moveCount ∧
      ((undoLastMove s).moveHistory.length : ℤ) ≤ (undoLastMove s).moveCount ∧
      ((commitAnimation s now nowDate).moveHistory.length : ℤ) ≤
        (commitAnimation s now nowDate).moveCount ∧
      ∀ c script, ((initializePuzzle s now c script).moveHistory.length : ℤ) ≤
        (initializePuzzle s now c script).moveCount) := by
  refine ⟨?_, ?_, ?_, ?_⟩
  · intro hsel hanim hne hal hbl
    have h1 : handleTileInteraction s b now =
        { s with
          moveHistory := s.moveHistory ++ [(a, b)],
          moveCount := s.moveCount + 1,
          currentAnimation := some ⟨a, b, now, 200⟩,
          selectedTileIndex := none } := by
      rw [handleTileInteraction, hsel]
      simp [hne]
    rw [h1]
    obtain ⟨ht, hh, hm, ha⟩ := commitAnimation_frame
      { s with
        moveHistory := s.moveHistory ++ [(a, b)],
        moveCount := s.moveCount + 1,
        currentAnimation := some ⟨a, b, now, 200⟩,
        selectedTileIndex := none } ⟨a, b, now, 200⟩ rfl now nowDate
    set u := commitAnimation
      { s with
        moveHistory := s.moveHistory ++ [(a, b)],
        moveCount := s.moveCount + 1,
        currentAnimation := some ⟨a, b, now, 200⟩,
        selectedTileIndex := none } now nowDate with hu
    dsimp only at ht hh hm
    have hpop := undoLastMove_pop u s.moveHistory a b hh ha
    rw [hpop]
    refine ⟨?_, rfl, ?_⟩
    · dsimp only
      rw [ht]
      exact listSwap_involutive s.tiles a b hal hbl
    · dsimp only
      rw [hm]
      ring
  · intro h
    have hcond : s.moveHistory.length = 0 ∨ s.currentAnimation.isSome = true := by
      rcases h with h | h
      · exact Or.inl (by simp [h])
      · exact Or.inr h
    rw [undoLastMove, if_pos hcond]
  · intro hne hanim hlen
    obtain ⟨h0, ab, hh⟩ : ∃ h0 ab, s.moveHistory = h0 ++ [ab] := by
      rcases List.eq_nil_or_concat s.moveHistory with h | ⟨h0, ab, hh⟩
      · exact absurd h hne
      · exact ⟨h0, ab, by simpa [List.concat_eq_append] using hh⟩
    have hlen1 : s.moveHistory.length = h0.length + 1 := by simp [hh]
    rw [undoLastMove_pop s h0 ab.1 ab.2 (by simp [hh]) hanim]
    refine ⟨rfl, ?_⟩
    show (0 : ℤ) ≤ s.moveCount - 1
    rw [hlen1] at hlen
    push_cast at hlen
    omega
  · intro hinv
    refine ⟨?_, ?_, ?_, ?_⟩
    · simp only [handleTileInteraction]
      rcases s.selectedTileIndex with _ | a2
      · simpa using hinv
      · dsimp only
        by_cases hne2 : a2 ≠ b
        · rw [if_pos hne2]
          show ((s.moveHistory ++ [(a2, b)]).length : ℤ) ≤ s.moveCount + 1
          rw [List.length_append]
          push_cast
          simp only [List.length_cons, List.length_nil]
          omega
        · rw [if_neg hne2]
          simpa using hinv
    · by_cases hcond : s.moveHistory.length = 0 ∨ s.currentAnimation.isSome = true
      · rw [undoLastMove, if_pos hcond]
        exact hinv
      · push_neg at hcond
        obtain ⟨hne0, hnsome⟩ := hcond
        have hanim : s.currentAnimation = none := by
          cases h : s.currentAnimation with
          | none => rfl
          | some a2 => exact absurd (by simp [h]) hnsome
        obtain ⟨h0, ab, hh⟩ : ∃ h0 ab, s.moveHistory = h0 ++ [ab] := by
          rcases List.eq_nil_or_concat s.moveHistory with h | ⟨h0, ab, hh⟩
          · exact absurd (by rw [h]; rfl) hne0
          · exact ⟨h0, ab, by simpa [List.concat_eq_append] using hh⟩
        have hlen1 : s.moveHistory.length = h0.length + 1 := by simp [hh]
        rw [undoLastMove_pop s h0 ab.1 ab.2 (by simp [hh]) hanim]
        dsimp only
        rw [hlen1] at hinv
        push_cast at hinv
        omega
    · cases hanim : s.currentAnimation with
      | none =>
        rw [commitAnimation, hanim]
        exact hinv
      | some anim =>
        obtain ⟨_, hh2, hm2, _⟩ := commitAnimation_frame s anim hanim now nowDate
        rw [hh2, hm2]
        exact hinv
    · intro c script
      simp [initializePuzzle, shuffleTilesRun]

/-- Witness for C4: a committed swap of positions 0 and 2 on a concrete 3x3
state is exactly reverted by undo; undo is the identity on an empty history;
and on a one-move state the count goes from 1 to 0, not below. -/
theorem spec_c4_undo_witness :
    (undoLastMove (commitAnimation
      (handleTileInteraction { samplePlaying with selectedTileIndex := some 0 } 2 0) 0 0)).tiles =
      { samplePlaying with selectedTileIndex := some 0 }.tiles ∧
    undoLastMove { samplePlaying with selectedTileIndex := some 0 } =
      { samplePlaying with selectedTileIndex := some 0 } ∧
    (undoLastMove sampleAfterMove).moveCount = sampleAfterMove.moveCount - 1 ∧
    0 ≤ (undoLastMove sampleAfterMove).moveCount := by
  have h1 := spec_c4_undo { samplePlaying with selectedTileIndex := some 0 } 0 2 0 0
  have h2 := spec_c4_undo sampleAfterMove 0 2 0 0
  refine ⟨(h1.1 rfl rfl (by decide) (by decide) (by decide)).1, h1.2.1 (Or.inl rfl), ?_, ?_⟩
  · exact (h2.2.2.1 (by decide) rfl (by decide)).1
  · exact (h2.2.2.1 (by decide) rfl (by decide)).2

/-- C8, amended: in the part_000 revision the arrow keys move focus exactly
one cell, clamped at the grid edges with no wraparound (focus is unchanged at
an edge), and Enter or Space performs exactly the tile interaction of a click
at the focused index.  In the app.component.ts revision the arrow arithmetic
is modular instead, so focus wraps around the edges there (see the
counterexample). -/
theorem spec_c8_keys (s : App) (f : ℕ) (now : ℚ) (hguard : inputGuardOK s)
    (hg : s.gridSize = 3 ∨ s.gridSize = 4 ∨ s.gridSize = 5)
    (hf : s.focusedTileIndex = some f) (hlt : f < s.gridSize * s.gridSize) :
    (handleKeyDownChallenge s Key.arrowUp now).focusedTileIndex =
      some (if f < s.gridSize then f else f - s.gridSize) ∧
    (handleKeyDownChallenge s Key.arrowDown now).focusedTileIndex =
      some (if s.gridSize * (s.gridSize - 1) ≤ f then f else f + s.gridSize) ∧
    (handleKeyDownChallenge s Key.arrowLeft now).focusedTileIndex =
      some (if f % s.gridSize = 0 then f else f - 1) ∧
    (handleKeyDownChallenge s Key.arrowRight now).focusedTileIndex =
      some (if f % s.gridSize = s.gridSize - 1 then f else f + 1) ∧
    handleKeyDownChallenge s Key.enter now = handleTileInteraction s f now ∧
    handleKeyDownChallenge s Key.space now = handleTileInteraction s f now := by
  obtain ⟨h1, h2, h3⟩ := hguard
  have hcond : ¬(s.gameState ≠ Phase.playing ∨ s.isShuffling = true ∨
      s.currentAnimation.isSome = true) := by
    simp [h1, h2, h3]
  have hgetD : s.focusedTileIndex.getD 0 = f := by rw [hf]; rfl
  refine ⟨?_, ?_, ?_, ?_, ?_, ?_⟩ <;>
    rw [handleKeyDownChallenge, if_neg hcond] <;>
    dsimp only <;>
    rw [hgetD]
  · rcases hg with h | h | h <;> rw [h] at hlt ⊢ <;>
      · simp only [Option.some.injEq]
        split_ifs <;> omega
  · rcases hg with h | h | h <;> rw [h] at hlt ⊢ <;>
      · simp only [Option.some.injEq]
        split_ifs <;> omega
  · rcases hg with h | h | h <;> rw [h] at hlt ⊢ <;>
      · simp only [Option.some.injEq]
        split_ifs <;> omega
  · rcases hg with h | h | h <;> rw [h] at hlt ⊢ <;>
      · simp only [Option.some.injEq]
        split_ifs <;> omega

/-- Witness for C8 on a concrete 3x3 state focused on tile 0: ArrowUp leaves
the focus in place (top edge), ArrowDown moves one row down, Enter interacts
at the focused index. -/
theorem spec_c8_keys_witness :
    (handleKeyDownChallenge samplePlaying Key.arrowUp 0).focusedTileIndex = some 0 ∧
    (handleKeyDownChallenge samplePlaying Key.arrowDown 0).focusedTileIndex = some 3 ∧
    handleKeyDownChallenge samplePlaying Key.enter 0 =
      handleTileInteraction samplePlaying 0 0 := by
  have h := spec_c8_keys samplePlaying 0 0 ⟨rfl, rfl, rfl⟩ (Or.inl rfl) rfl (by decide)
  refine ⟨?_, ?_, h.2.2.2.2.1⟩
  · rw [h.1]
    decide
  · rw [h.2.1]
    decide

/-- Counterexample to C8 as stated: in the handleKeyDown of
app.component.ts, with focus on tile 0 (top-left) of a 3x3 grid in a
guard-satisfying state, ArrowUp does not leave the focus at the edge but
wraps it to tile 6 on the bottom row. -/
theorem spec_c8_cex :
    samplePlaying.focusedTileIndex = some 0 ∧
    samplePlaying.gridSize = 3 ∧
    (handleKeyDown samplePlaying Key.arrowUp 0).focusedTileIndex = some 6 := by
  refine ⟨rfl, rfl, by decide⟩

theorem challengeTick_iterate (s : ChallengeState) (k : ℕ)
    (h : (k : ℤ) * 1000 < s.challengeTimeRemaining) :
    challengeTick^[k] s =
      { s with challengeTimeRemaining := s.challengeTimeRemaining - 1000 * k } := by
  induction k with
  | zero => simp
  | succ n ih =>
    have hn : (n : ℤ) * 1000 < s.challengeTimeRemaining := by push_cast at h ⊢; omega
    rw [Function.iterate_succ_apply', ih hn, challengeTick]
    have hpos : ¬(({ s with
        challengeTimeRemaining :=
          s.challengeTimeRemaining - 1000 * n }).challengeTimeRemaining - 1000 ≤ 0) := by
      dsimp only
      push_cast at h
      omega
    dsimp only
    rw [if_neg (by dsimp only at hpos ⊢; exact hpos)]
    congr 1
    push_cast
    ring

/-- C9: a 3-minute timed session starts with 180000ms remaining; 180
one-second ticks, each subtracting 1000ms, drive the remaining time to 0 and
the phase to times-up. -/
theorem spec_c9_timer :
    (startTimedChallenge 3 3).challengeTimeRemaining = 180000 ∧
    (challengeTick^[180] (startTimedChallenge 3 3)).gameState = Phase.timesUp ∧
    (challengeTick^[180] (startTimedChallenge 3 3)).challengeTimeRemaining ≤ 0 := by
  have h179 := challengeTick_iterate (startTimedChallenge 3 3) 179 (by decide)
  have h180 : challengeTick^[180] (startTimedChallenge 3 3) =
      challengeTick (challengeTick^[179] (startTimedChallenge 3 3)) :=
    Function.iterate_succ_apply' challengeTick 179 (startTimedChallenge 3 3)
  rw [h180, h179]
  refine ⟨by decide, by decide, by decide⟩

theorem floorBound (x w : ℚ) (g : ℤ) (hw : 0 < w) (hx0 : 0 ≤ x) (hx : x < g * w) :
    0 ≤ ⌊x / w⌋ ∧ ⌊x / w⌋ < g := by
  constructor
  · apply Int.le_floor.mpr
    push_cast
    positivity
  · apply Int.floor_lt.mpr
    rw [div_lt_iff₀ hw]
    exact_mod_cast hx

/-- C10: for every grid size N in 3, 4, 5 and click coordinates inside the
600 by 600 canvas, the index row * N + col computed by handleCanvasClick lies
in 0 .. N^2 - 1, and under the input guard handleCanvasClick passes exactly
this index to handleTileInteraction with no range check of its own. -/
theorem spec_c10_click (g : ℕ) (hg : g = 3 ∨ g = 4 ∨ g = 5) (x y : ℚ)
    (hx0 : 0 ≤ x) (hx : x < 600) (hy0 : 0 ≤ y) (hy : y < 600)
    (s : App) (now : ℚ) (hguard : inputGuardOK s) (hgs : s.gridSize = g) :
    0 ≤ clickedIndex g x y ∧ clickedIndex g x y ≤ (g : ℤ) * g - 1 ∧
    handleCanvasClick s x y now =
      handleTileInteraction s (clickedIndex g x y).toNat now := by
  obtain ⟨h1, h2, h3⟩ := hguard
  have hcond : ¬(s.gameState ≠ Phase.playing ∨ s.isShuffling = true ∨
      s.currentAnimation.isSome = true) := by
    simp [h1, h2, h3]
  have hmain : 0 ≤ clickedIndex g x y ∧ clickedIndex g x y ≤ (g : ℤ) * g - 1 := by
    rcases hg with rfl | rfl | rfl
    · have hb1 := floorBound x 200 3 (by norm_num) hx0 (by push_cast; linarith)
      have hb2 := floorBound y 200 3 (by norm_num) hy0 (by push_cast; linarith)
      rw [clickedIndex]
      norm_num [PUZZLE_DIMENSION]
      omega
    · have hb1 := floorBound x 150 4 (by norm_num) hx0 (by push_cast; linarith)
      have hb2 := floorBound y 150 4 (by norm_num) hy0 (by push_cast; linarith)
      rw [clickedIndex]
      norm_num [PUZZLE_DIMENSION]
      omega
    · have hb1 := floorBound x 120 5 (by norm_num) hx0 (by push_cast; linarith)
      have hb2 := floorBound y 120 5 (by norm_num) hy0 (by push_cast; linarith)
      rw [clickedIndex]
      norm_num [PUZZLE_DIMENSION]
      omega
  refine ⟨hmain.1, hmain.2, ?_⟩
  rw [handleCanvasClick, if_neg hcond, hgs]

/-- Witness for C10: a click at canvas coordinates x = 250, y = 420 on a 3x3
grid lands on index 7 and is routed unchecked to the tile interaction. -/
theorem spec_c10_click_witness :
    0 ≤ clickedIndex 3 250 420 ∧ clickedIndex 3 250 420 ≤ (3 : ℤ) * 3 - 1 ∧
    handleCanvasClick samplePlaying 250 420 0 =
      handleTileInteraction samplePlaying (clickedIndex 3 250 420).toNat 0 :=
  spec_c10_click 3 (Or.inl rfl) 250 420 (by norm_num) (by norm_num) (by norm_num)
    (by norm_num) samplePlaying 0 ⟨rfl, rfl, rfl⟩ rfl

end CameraPuzzle

